import Mathlib

/-!
Shallow embedding of `openapi-gen/main.go` from the nakama-js repository.

The generator reads a Swagger/OpenAPI-style JSON document into an in-memory
schema (Go struct `schema` in `main`), and renders the Go `text/template`
constant `codeTemplate` against it, using the template function map
`camelCase ↦ snakeCaseToCamelCase`, `cleanRef ↦ convertRefToClassName`,
`title ↦ strings.Title`, `uppercase ↦ strings.ToUpper`.

The embedding models:
  * the naming helpers (`snakeCaseToCamelCase`, `convertRefToClassName`,
    Go's `strings.Title`, `strings.ToUpper`), with Unicode case mapping
    modelled for ASCII (the generator's identifier domain);
  * Go maps as association lists; `text/template` ranges over a map in
    ascending key order (template `sortKeys`), modelled by sorting the keys;
  * template execution as a writer that appends text left to right and
    stops at the first execution error, keeping the text already written
    (`EmitResult`).  The two error sites in `codeTemplate` are the pipeline
    `{{$property.AdditionalProperties | cleanRef}}` (a struct piped into a
    function expecting a string) and the field access
    `{{$parameter.AdditionalProperties.Type}}` (the parameter struct has no
    such field); both abort execution mid-line.
-/

namespace OpenapiGen

/-! ### Naming transformer: `snakeCaseToCamelCase` (main.go:206-226) -/

/-- The loop body of `snakeCaseToCamelCase` for the characters after the
first one: carries the `isToUpper` flag; an underscore sets the flag and is
dropped, a character seen with the flag set is upper-cased.  Case mapping is
`Char.toUpper`, matching Go `strings.ToUpper` on ASCII. -/
def camelGo : List Char → Bool → List Char
  | [], _ => []
  | c :: rest, b =>
    if b then Char.toUpper c :: camelGo rest false
    else if c = '_' then camelGo rest true
    else c :: camelGo rest false

/-- `snakeCaseToCamelCase` (main.go:206-226): the first character is
lower-cased (Go lowers `input[0]`, the first byte; modelled for ASCII where
byte = rune), the rest are processed by the `isToUpper` loop. -/
def snakeCaseToCamelCase (input : String) : String :=
  match input.data with
  | [] => ""
  | c :: rest => ⟨Char.toLower c :: camelGo rest false⟩

/-! ### Go `strings.Title` and `convertRefToClassName` (main.go:228-232) -/

/-- Go `unicode.IsSpace` (White_Space code points outside ASCII; the ASCII
ones are handled by the table in `goIsSeparator`). -/
def goUnicodeIsSpace (c : Char) : Bool :=
  c.toNat = 0x85 || c.toNat = 0xA0 || c.toNat = 0x1680 ||
  (0x2000 ≤ c.toNat && c.toNat ≤ 0x200A) || c.toNat = 0x2028 ||
  c.toNat = 0x2029 || c.toNat = 0x202F || c.toNat = 0x205F || c.toNat = 0x3000

/-- Go `strings.isSeparator`: ASCII alphanumerics and underscore are not
separators, every other ASCII character is; outside ASCII, letters and
digits are not separators and only white space is (letters/digits are never
White_Space, so this reduces to the space check). -/
def goIsSeparator (c : Char) : Bool :=
  if c.toNat ≤ 0x7F then
    !(('0' ≤ c && c ≤ '9') || ('a' ≤ c && c ≤ 'z') ||
      ('A' ≤ c && c ≤ 'Z') || c == '_')
  else
    goUnicodeIsSpace c

/-- The `strings.Map` pass inside Go `strings.Title`: a character following
a separator is title-cased (`Char.toUpper`, matching `unicode.ToTitle` on
ASCII); `prev` is the previous character, initially a space. -/
def titleGo (prev : Char) : List Char → List Char
  | [] => []
  | c :: rest =>
    (if goIsSeparator prev then Char.toUpper c else c) :: titleGo c rest

/-- Go `strings.Title`. -/
def stringsTitle (s : String) : String := ⟨titleGo ' ' s.data⟩

/-- Go `strings.ToUpper`, modelled for ASCII. -/
def stringsToUpper (s : String) : String := ⟨s.data.map Char.toUpper⟩

/-- Go `strings.TrimPrefix s pre`: drop `pre` from the front of `s` when it
is a prefix, otherwise return `s` unchanged. -/
def stringsTrimPrefixOf (s pre : String) : String :=
  if pre.data.isPrefixOf s.data then ⟨s.data.drop pre.data.length⟩ else s

/-- `convertRefToClassName` (main.go:228-232): strip the
`#/definitions/` pointer namespace if present, then `strings.Title`. -/
def convertRefToClassName (input : String) : String :=
  stringsTitle (stringsTrimPrefixOf input "#/definitions/")

/-! ### Schema model (the anonymous `schema` struct in `main`, main.go:260-301)

Go maps are modelled as association lists; `text/template` iterates a map
in ascending key order, so rendering sorts the keys (`sortedEntries`). -/

/-- `Items` of a definition property (has `Type` and `Ref`). -/
structure PropItems where
  type : String
  ref : String
deriving Inhabited, DecidableEq

/-- `AdditionalProperties` of a definition property (only `Type`). -/
structure PropAdditionalProperties where
  type : String
deriving Inhabited, DecidableEq

/-- A definition property descriptor. -/
structure Property where
  type : String
  ref : String
  items : PropItems
  additionalProperties : PropAdditionalProperties
  format : String
  description : String
deriving Inhabited, DecidableEq

/-- A named definition: properties map plus description. -/
structure Definition where
  properties : List (String × Property)
  description : String
deriving Inhabited, DecidableEq

/-- `Items` of an operation parameter (only `Type`). -/
structure ParamItems where
  type : String
deriving Inhabited, DecidableEq

/-- `Schema` of a body parameter (`Type` and `Ref`). -/
structure ParamSchema where
  type : String
  ref : String
deriving Inhabited, DecidableEq

/-- An operation parameter; `inLocation` is the Go field `In`. -/
structure Parameter where
  name : String
  inLocation : String
  required : Bool
  type : String
  items : ParamItems
  schema : ParamSchema
deriving Inhabited, DecidableEq

/-- The `"200"` response schema (only `$ref`). -/
structure RespSchema where
  ref : String
deriving Inhabited, DecidableEq

/-- The `Ok` (json `"200"`) response entry. -/
structure RespOk where
  schema : RespSchema
deriving Inhabited, DecidableEq

/-- The `Responses` struct of an operation. -/
structure Responses where
  ok : RespOk
deriving Inhabited, DecidableEq

/-- One HTTP operation. -/
structure Operation where
  summary : String
  operationId : String
  responses : Responses
  parameters : List Parameter
deriving Inhabited, DecidableEq

/-- The whole document: paths (url → method → operation) and definitions. -/
structure Schema where
  paths : List (String × List (String × Operation))
  definitions : List (String × Definition)
deriving Inhabited, DecidableEq

/-! ### Template execution as a writer with an abort flag -/

/-- The result of executing a template fragment: the text written, and
whether execution reached the end without an execution error.  On error the
text written so far is kept (template output is streamed). -/
structure EmitResult where
  out : String
  ok : Bool
deriving Inhabited, DecidableEq

/-- Plain text written successfully. -/
def emitStr (s : String) : EmitResult := ⟨s, true⟩

/-- Text written up to the point where an execution error occurs. -/
def emitErr (s : String) : EmitResult := ⟨s, false⟩

/-- Sequencing of fragments: once a fragment errors, nothing further is
written. -/
def EmitResult.seq (a b : EmitResult) : EmitResult :=
  if a.ok then ⟨a.out ++ b.out, b.ok⟩ else a

/-- Execute a list of fragments left to right. -/
def emitConcat : List EmitResult → EmitResult
  | [] => ⟨"", true⟩
  | a :: rest => a.seq (emitConcat rest)

/-- Association-list lookup by key (Go map access; keys of a Go map are
unique). -/
def lookupA (k : String) : List (String × α) → Option α
  | [] => none
  | (k', v) :: rest => if k = k' then some v else lookupA k rest

/-- The entries of a Go map in the order `text/template` ranges over them:
ascending key order. -/
def sortedEntries [Inhabited α] (l : List (String × α)) : List (String × α) :=
  (List.insertionSort (fun a b : String => a ≤ b) (l.map Prod.fst)).map
    (fun k => (k, (lookupA k l).getD default))

/-! ### The emitter: `codeTemplate` (main.go:28-204)

The template is transcribed literally, with Go template whitespace control
(`{{-` / `-}}`) already applied to the text nodes.  Literal braces in the
emitted text are written with `\x7b` / `\x7d` escapes, apostrophes with
`\x27`. -/

/-- The fixed generated-code banner (template lines before `BASE_PATH`). -/
def bannerText : String :=
  "// tslint:disable\n/* Code generated by openapi-gen/main.go. DO NOT EDIT. */\n\n"

/-- The fixed `BASE_PATH` constant line. -/
def basePathLine : String :=
  "const BASE_PATH = \"http://127.0.0.1:80\";"

/-- The fixed `ConfigurationParameters` interface (trailing whitespace
trimmed by the `{{- range}}` over `.Definitions`). -/
def configInterfaceText : String :=
  "\n\nexport interface ConfigurationParameters \x7b\n  basePath?: string;\n  username?: string;\n  password?: string;\n  bearerToken?: string;\n  timeoutMs?: number;\n\x7d"

/-- All fixed output up to the definitions range. -/
def staticPrefix : String := bannerText ++ basePathLine ++ configInterfaceText

/-- The fixed `NakamaApi` factory header and `doFetch` dispatcher, emitted
between the definitions range and the paths range. -/
def nakamaFactoryText : String :=
  "\n\nexport const NakamaApi = (configuration: ConfigurationParameters = \x7b\n" ++
  "  basePath: BASE_PATH,\n" ++
  "  bearerToken: \"\",\n" ++
  "  password: \"\",\n" ++
  "  username: \"\",\n" ++
  "  timeoutMs: 5000,\n" ++
  "\x7d) => \x7b\n" ++
  "  const napi = \x7b\n" ++
  "    /** Perform the underlying Fetch operation and return Promise object **/\n" ++
  "    doFetch(urlPath: string, method: string, queryParams: any, body?: any, options?: any): Promise<any> \x7b\n" ++
  "      const urlQuery = \"?\" + Object.keys(queryParams)\n" ++
  "        .map(k => \x7b\n" ++
  "          if (queryParams[k] instanceof Array) \x7b\n" ++
  "            return queryParams[k].reduce((prev: any, curr: any) => \x7b\n" ++
  "              return prev + encodeURIComponent(k) + \"=\" + encodeURIComponent(curr) + \"&\";\n" ++
  "            \x7d, \"\");\n" ++
  "          \x7d else \x7b\n" ++
  "            if (queryParams[k] != null) \x7b\n" ++
  "              return encodeURIComponent(k) + \"=\" + encodeURIComponent(queryParams[k]) + \"&\";\n" ++
  "            \x7d\n" ++
  "          \x7d\n" ++
  "        \x7d)\n" ++
  "        .join(\"\");\n" ++
  "\n" ++
  "      const fetchOptions = \x7b...\x7b method: method /*, keepalive: true */ \x7d, ...options\x7d;\n" ++
  "      fetchOptions.headers = \x7b...options.headers\x7d;\n" ++
  "      if (configuration.bearerToken) \x7b\n" ++
  "        fetchOptions.headers[\"Authorization\"] = \"Bearer \" + configuration.bearerToken;\n" ++
  "      \x7d else if (configuration.username) \x7b\n" ++
  "        fetchOptions.headers[\"Authorization\"] = \"Basic \" + btoa(configuration.username + \":\" + configuration.password);\n" ++
  "      \x7d\n" ++
  "      if(!Object.keys(fetchOptions.headers).includes(\"Accept\")) \x7b\n" ++
  "        fetchOptions.headers[\"Accept\"] = \"application/json\";\n" ++
  "      \x7d\n" ++
  "      if(!Object.keys(fetchOptions.headers).includes(\"Content-Type\")) \x7b\n" ++
  "        fetchOptions.headers[\"Content-Type\"] = \"application/json\";\n" ++
  "      \x7d\n" ++
  "      Object.keys(fetchOptions.headers).forEach((key: string) => \x7b\n" ++
  "        if(!fetchOptions.headers[key]) \x7b\n" ++
  "          delete fetchOptions.headers[key];\n" ++
  "        \x7d\n" ++
  "      \x7d);\n" ++
  "      fetchOptions.body = body;\n" ++
  "\n" ++
  "      return Promise.race([\n" ++
  "        fetch(configuration.basePath + urlPath + urlQuery, fetchOptions).then((response) => \x7b\n" ++
  "          if (response.status >= 200 && response.status < 300) \x7b\n" ++
  "            return response.json();\n" ++
  "          \x7d else \x7b\n" ++
  "            throw response;\n" ++
  "          \x7d\n" ++
  "        \x7d),\n" ++
  "        new Promise((_, reject) =>\n" ++
  "          setTimeout(reject, configuration.timeoutMs, \"Request timed out.\")\n" ++
  "        ),\n" ++
  "      ]);\n" ++
  "    \x7d,"

/-- The fixed closing text after the paths range. -/
def staticSuffix : String :=
  "\n  \x7d;\n\n  return napi;\n\x7d;\n"

/-- The field type chain of a definition property (template lines 46-76),
prefixed by the field name.  The `object` descriptor whose
`AdditionalProperties.Type` is none of string/integer/boolean pipes the
`AdditionalProperties` struct into `cleanRef`, which expects a string: an
execution error after `Map<` has been written. -/
def fieldLine (fieldname : String) (p : Property) : EmitResult :=
  if p.type = "integer" then
    emitStr ("\n  " ++ fieldname ++ "?: number;")
  else if p.type = "number" then
    emitStr ("\n  " ++ fieldname ++ "?: number;")
  else if p.type = "boolean" then
    emitStr ("\n  " ++ fieldname ++ "?: boolean;")
  else if p.type = "array" then
    (if p.items.type = "string" then
      emitStr ("\n  " ++ fieldname ++ "?: Array<string>;")
    else if p.items.type = "integer" then
      emitStr ("\n  " ++ fieldname ++ "?: Array<number>;")
    else if p.items.type = "boolean" then
      emitStr ("\n  " ++ fieldname ++ "?: Array<boolean>;")
    else
      emitStr ("\n  " ++ fieldname ++ "?: Array<" ++ convertRefToClassName p.items.ref ++ ">;"))
  else if p.type = "object" then
    (if p.additionalProperties.type = "string" then
      emitStr ("\n  " ++ fieldname ++ "?: Map<string, string>;")
    else if p.additionalProperties.type = "integer" then
      emitStr ("\n  " ++ fieldname ++ "?: Map<string, integer>;")
    else if p.additionalProperties.type = "boolean" then
      emitStr ("\n  " ++ fieldname ++ "?: Map<string, boolean>;")
    else
      emitErr ("\n  " ++ fieldname ++ "?: Map<"))
  else if p.type = "string" then
    emitStr ("\n  " ++ fieldname ++ "?: string;")
  else
    emitStr ("\n  " ++ fieldname ++ "?: " ++ convertRefToClassName p.ref ++ ";")

/-- One property of a definition: the description comment then the field
line (template lines 45-76). -/
def propertyBlock (fieldname : String) (p : Property) : EmitResult :=
  (emitStr ("\n  // " ++ p.description)).seq (fieldLine fieldname p)

/-- One definition interface (template lines 42-78). -/
def definitionBlock (classname : String) (d : Definition) : EmitResult :=
  (emitStr ("\n/** " ++ d.description ++ " */\nexport interface " ++
      stringsTitle classname ++ " \x7b")).seq
    ((emitConcat ((sortedEntries d.properties).map
        (fun e => propertyBlock e.1 e.2))).seq
      (emitStr "\n\x7d"))

/-- The argument-list entry for one parameter (template lines 143-160).
A parameter whose `In` is neither `path` nor `body` and whose `Type` is
`object` evaluates `$parameter.AdditionalProperties.Type`, a field the
parameter struct does not have: an execution error after `Map<` has been
written. -/
def paramSig (p : Parameter) : EmitResult :=
  let cc := snakeCaseToCamelCase p.name
  let opt := if p.required then "" else "?"
  if p.inLocation = "path" then
    emitStr (cc ++ opt ++ ": " ++ p.type ++ ",")
  else if p.inLocation = "body" then
    (if p.schema.type = "string" then
      emitStr (cc ++ opt ++ ": " ++ p.schema.type ++ ",")
    else
      emitStr (cc ++ opt ++ ": " ++ convertRefToClassName p.schema.ref ++ ","))
  else if p.type = "array" then
    emitStr (cc ++ opt ++ ": Array<" ++ p.items.type ++ ">,")
  else if p.type = "object" then
    emitErr (cc ++ opt ++ ": Map<")
  else if p.type = "integer" then
    emitStr (cc ++ opt ++ ": number,")
  else
    emitStr (cc ++ opt ++ ": " ++ p.type ++ ",")

/-- The text of the null/undefined guard emitted for a required parameter,
given its camelCase argument name (template lines 165-169). -/
def requiredCheckText (cc : String) : String :=
  "\n      if (" ++ cc ++ " === null || " ++ cc ++
  " === undefined) \x7b\n        throw new Error(\"\x27" ++ cc ++
  "\x27 is a required parameter but is null or undefined.\");\n      \x7d"

/-- The guard fragment for one parameter (nothing unless required). -/
def requiredCheck (p : Parameter) : EmitResult :=
  if p.required then emitStr (requiredCheckText (snakeCaseToCamelCase p.name))
  else emitStr ""

/-- The `.replace` chain entry for one parameter (template lines 172-177):
only `path` parameters contribute. -/
def pathReplace (p : Parameter) : EmitResult :=
  if p.inLocation = "path" then
    emitStr ("\n         .replace(\"\x7b" ++ p.name ++
      "\x7d\", encodeURIComponent(String(" ++ snakeCaseToCamelCase p.name ++ ")))")
  else emitStr ""

/-- The query-object entry for one parameter (template lines 180-185):
only `query` parameters contribute. -/
def queryEntry (p : Parameter) : EmitResult :=
  if p.inLocation = "query" then
    emitStr ("\n        " ++ p.name ++ ": " ++ snakeCaseToCamelCase p.name ++ ",")
  else emitStr ""

/-- The body-serialization statement for one parameter (template lines
189-194): only `body` parameters contribute. -/
def bodyStmt (p : Parameter) : EmitResult :=
  if p.inLocation = "body" then
    emitStr ("\n      _body = JSON.stringify(" ++ snakeCaseToCamelCase p.name ++
      " || \x7b\x7d);")
  else emitStr ""

/-- The declared result type of a method (template line 162): the cleaned
200-response reference when it is non-empty (template truthiness of the
piped string), otherwise `any`. -/
def returnType (op : Operation) : String :=
  let r := convertRefToClassName op.responses.ok.schema.ref
  if r = "" then "any" else r

/-- The opening of a generated method: doc comment, camelCase name, `(`
(template lines 140-141). -/
def methodHeader (op : Operation) : String :=
  "\n    /** " ++ op.summary ++ " */\n    " ++
  snakeCaseToCamelCase op.operationId ++ "("

/-- The closing `return napi.doFetch(...)` statement of a method body
(template lines 196-197). -/
def doFetchReturn (method : String) : String :=
  "\n\n      return napi.doFetch(urlPath, \"" ++ stringsToUpper method ++
  "\", queryParams, _body, options)\n    \x7d,"

/-- One generated method (template lines 140-197): signature (each
parameter entry followed by the `{{- " "}}` space, then the trailing
options argument), required-parameter guards, URL templating, query
object, body serialization, dispatch. -/
def methodBlock (url method : String) (op : Operation) : EmitResult :=
  (emitStr (methodHeader op)).seq
  ((emitConcat (op.parameters.map (fun p => (paramSig p).seq (emitStr " ")))).seq
  ((emitStr ("options: any = \x7b\x7d): Promise<" ++ returnType op ++ "> \x7b")).seq
  ((emitConcat (op.parameters.map requiredCheck)).seq
  ((emitStr ("\n      const urlPath = \"" ++ url ++ "\"")).seq
  ((emitConcat (op.parameters.map pathReplace)).seq
  ((emitStr ";\n\n      const queryParams = \x7b").seq
  ((emitConcat (op.parameters.map queryEntry)).seq
  ((emitStr "\n      \x7d as any;\n\n      let _body = null;").seq
  ((emitConcat (op.parameters.map bodyStmt)).seq
  (emitStr (doFetchReturn method)))))))))))

/-- The definitions pass (the `range` over `.Definitions`). -/
def definitionsRender (s : Schema) : EmitResult :=
  emitConcat ((sortedEntries s.definitions).map (fun e => definitionBlock e.1 e.2))

/-- The operations pass (the `range` over `.Paths`, then over each path's
methods). -/
def pathsRender (s : Schema) : EmitResult :=
  emitConcat ((sortedEntries s.paths).map (fun u =>
    emitConcat ((sortedEntries u.2).map (fun m => methodBlock u.1 m.1 m.2))))

/-- Executing `codeTemplate` against a schema document. -/
def generate (s : Schema) : EmitResult :=
  (emitStr staticPrefix).seq
  ((definitionsRender s).seq
  ((emitStr nakamaFactoryText).seq
  ((pathsRender s).seq
  (emitStr staticSuffix))))

/-! ### Character-level facts about the naming transformer -/

/-- The character class of snake_case identifiers: lowercase ASCII letters,
digits, underscore. -/
def SnakeChar (c : Char) : Prop := ('a' ≤ c ∧ c ≤ 'z') ∨ ('0' ≤ c ∧ c ≤ '9') ∨ c = '_'

instance : DecidablePred SnakeChar := fun c =>
  inferInstanceAs (Decidable (('a' ≤ c ∧ c ≤ 'z') ∨ ('0' ≤ c ∧ c ≤ '9') ∨ c = '_'))

theorem char_eq_of_toNat_eq {a b : Char} (h : a.toNat = b.toNat) : a = b := by
  rw [← Char.ofNat_toNat a, ← Char.ofNat_toNat b, h]

theorem charOfNat_toNat {n : Nat} (h : Nat.isValidChar n) : (Char.ofNat n).toNat = n := by
  simp [Char.ofNat, h, Char.ofNatAux, Char.toNat, UInt32.toNat, BitVec.toNat_ofNatLt]

theorem snakeChar_toNat {c : Char} (h : SnakeChar c) :
    (97 ≤ c.toNat ∧ c.toNat ≤ 122) ∨ (48 ≤ c.toNat ∧ c.toNat ≤ 57) ∨ c.toNat = 95 := by
  rcases h with ⟨h1, h2⟩ | ⟨h1, h2⟩ | h
  · exact Or.inl ⟨h1, h2⟩
  · exact Or.inr (Or.inl ⟨h1, h2⟩)
  · exact Or.inr (Or.inr (by rw [h]; rfl))

theorem toLower_eq_self {c : Char} (h : SnakeChar c) : Char.toLower c = c := by
  have := snakeChar_toNat h
  unfold Char.toLower
  rw [if_neg]; omega

theorem toUpper_ne_underscore {c : Char} (h : SnakeChar c) (h2 : c ≠ '_') :
    Char.toUpper c ≠ '_' := by
  have hn := snakeChar_toNat h
  intro heq
  have h95 : (Char.toUpper c).toNat = 95 := by rw [heq]; rfl
  unfold Char.toUpper at h95
  by_cases hc : 97 ≤ c.toNat ∧ c.toNat ≤ 122
  · rw [if_pos (by exact ⟨hc.1, hc.2⟩)] at h95
    rw [charOfNat_toNat (by left; omega)] at h95
    omega
  · rw [if_neg (by omega)] at h95
    rcases hn with h' | h' | h'
    · omega
    · omega
    · exact h2 (char_eq_of_toNat_eq (by rw [h95]; rfl))

theorem goIsSeparator_false {c : Char} (h : SnakeChar c) : goIsSeparator c = false := by
  have hn := snakeChar_toNat h
  unfold goIsSeparator
  rw [if_pos (by omega)]
  simp only [Bool.not_eq_false', Bool.or_eq_true, Bool.and_eq_true, decide_eq_true_eq, beq_iff_eq]
  rcases h with h' | h' | h'
  · exact Or.inl (Or.inl (Or.inr h'))
  · exact Or.inl (Or.inl (Or.inl h'))
  · exact Or.inr h'

/-- `strings.Title`'s mapping pass changes nothing after a non-separator. -/
theorem titleGo_fixed {l : List Char} (prev : Char)
    (hp : goIsSeparator prev = false) (hl : ∀ c ∈ l, SnakeChar c) :
    titleGo prev l = l := by
  induction l generalizing prev with
  | nil => rfl
  | cons c rest ih =>
    unfold titleGo
    rw [hp]
    simp only [Bool.false_eq_true, if_false]
    rw [ih c (goIsSeparator_false (hl c (by simp))) (fun d hd => hl d (by simp [hd]))]

/-- Capitalize only the first character, leaving the rest unchanged. -/
def capitalizeFirst (s : String) : String :=
  match s.data with
  | [] => ""
  | c :: r => ⟨Char.toUpper c :: r⟩

/-- On snake_case material (no separators), `strings.Title` upper-cases
exactly the first character. -/
theorem stringsTitle_snake (s : String) (hl : ∀ c ∈ s.data, SnakeChar c) :
    stringsTitle s = capitalizeFirst s := by
  unfold stringsTitle capitalizeFirst
  cases hd : s.data with
  | nil => rfl
  | cons c r =>
    unfold titleGo
    have hsep : goIsSeparator ' ' = true := by decide
    rw [hsep]
    simp only [if_true]
    congr 1
    refine congrArg _ ?_
    refine titleGo_fixed c (goIsSeparator_false ?_) (fun d hd2 => ?_)
    · exact hl c (by rw [hd]; simp)
    · exact hl d (by rw [hd]; simp [hd2])

theorem trimPrefix_append (pre s : String) :
    stringsTrimPrefixOf (pre ++ s) pre = s := by
  unfold stringsTrimPrefixOf
  have hp : pre.data.isPrefixOf (pre ++ s).data = true := by
    rw [List.isPrefixOf_iff_prefix]
    exact List.prefix_append pre.data s.data
  rw [if_pos hp]
  apply String.ext
  simp only [String.data_append]
  exact List.drop_left pre.data s.data

/-! ### Facts about `snakeCaseToCamelCase` -/

/-- No two adjacent underscores. -/
def NoDoubleUnderscore (l : List Char) : Prop :=
  List.Chain' (fun x y => ¬(x = '_' ∧ y = '_')) l

/-- Executable check for `NoDoubleUnderscore`. -/
def noDoubleUB : List Char → Bool
  | a :: b :: rest => (!(a == '_' && b == '_')) && noDoubleUB (b :: rest)
  | _ => true

theorem noDoubleUB_iff (l : List Char) : noDoubleUB l = true ↔ NoDoubleUnderscore l := by
  induction l with
  | nil => simp [noDoubleUB, NoDoubleUnderscore]
  | cons a tail ih =>
    cases tail with
    | nil => simp [noDoubleUB, NoDoubleUnderscore]
    | cons b rest =>
      unfold noDoubleUB NoDoubleUnderscore
      rw [List.chain'_cons]
      unfold NoDoubleUnderscore at ih
      rw [Bool.and_eq_true, ih]
      simp only [Bool.not_eq_true', Bool.and_eq_false_iff, beq_eq_false_iff_ne, ne_eq, beq_iff_eq]
      constructor
      · rintro ⟨h1, h2⟩
        refine ⟨fun hab => ?_, h2⟩
        rcases h1 with h | h
        · exact h hab.1
        · exact h hab.2
      · rintro ⟨h1, h2⟩
        refine ⟨?_, h2⟩
        by_cases ha : a = '_'
        · exact Or.inr (fun hb => h1 ⟨ha, hb⟩)
        · exact Or.inl ha

instance (l : List Char) : Decidable (NoDoubleUnderscore l) :=
  decidable_of_iff _ (noDoubleUB_iff l)

theorem camelGo_no_underscore (l : List Char) (b : Bool)
    (hs : ∀ c ∈ l, SnakeChar c)
    (hch : NoDoubleUnderscore l)
    (hb : b = true → ∀ c, l.head? = some c → c ≠ '_') :
    '_' ∉ camelGo l b := by
  induction l generalizing b with
  | nil => cases b <;> simp [camelGo]
  | cons c rest ih =>
    have hs' : ∀ d ∈ rest, SnakeChar d := fun d hd => hs d (by simp [hd])
    have hch' : NoDoubleUnderscore rest := hch.tail
    cases b with
    | true =>
      have hc : c ≠ '_' := hb rfl c rfl
      unfold camelGo
      simp only [if_true]
      intro hmem
      rcases List.mem_cons.mp hmem with h1 | h2
      · exact toUpper_ne_underscore (hs c (by simp)) hc h1.symm
      · exact ih false hs' hch' (by intro h; cases h) h2
    | false =>
      unfold camelGo
      simp only [Bool.false_eq_true, if_false]
      by_cases hc : c = '_'
      · rw [if_pos hc]
        refine ih true hs' hch' ?_
        intro _ d hd
        cases rest with
        | nil => cases hd
        | cons e r2 =>
          have := (List.chain'_cons.mp hch).1
          simp only [List.head?_cons, Option.some.injEq] at hd
          subst hd hc
          intro hd'
          exact this ⟨rfl, hd'⟩
      · rw [if_neg hc]
        intro hmem
        rcases List.mem_cons.mp hmem with h1 | h2
        · exact hc h1.symm
        · exact ih false hs' hch' (by intro h; cases h) h2

theorem camelGo_fixed {l : List Char} (h : '_' ∉ l) : camelGo l false = l := by
  induction l with
  | nil => rfl
  | cons c rest ih =>
    unfold camelGo
    simp only [Bool.false_eq_true, if_false]
    rw [if_neg (by intro hc; exact h (by simp [hc]))]
    rw [ih (fun hm => h (by simp [hm]))]

theorem snake_cons {t : String} {c : Char} {rest : List Char} (h : t.data = c :: rest) :
    snakeCaseToCamelCase t = ⟨Char.toLower c :: camelGo rest false⟩ := by
  simp only [snakeCaseToCamelCase, h]

/-- On snake_case input with no leading and no doubled underscore, the
output of `snakeCaseToCamelCase` has no underscore and the function is
idempotent on it. -/
theorem snake_camel_props (s : String)
    (hs : ∀ c ∈ s.data, SnakeChar c)
    (hh : s.data.head? ≠ some '_')
    (hc : NoDoubleUnderscore s.data) :
    '_' ∉ (snakeCaseToCamelCase s).data ∧
    snakeCaseToCamelCase (snakeCaseToCamelCase s) = snakeCaseToCamelCase s := by
  cases hd : s.data with
  | nil =>
    simp only [snakeCaseToCamelCase, hd]
    constructor
    · simp
    · trivial
  | cons c rest =>
    have hcne : c ≠ '_' := fun heq => hh (by rw [hd, heq]; rfl)
    have hlc : Char.toLower c = c := toLower_eq_self (hs c (by rw [hd]; simp))
    have hnur : '_' ∉ camelGo rest false := by
      refine camelGo_no_underscore rest false ?_ ?_ (by intro h; cases h)
      · exact fun d hd2 => hs d (by rw [hd]; simp [hd2])
      · have : NoDoubleUnderscore s.data := hc
        rw [hd] at this
        exact this.tail
    have hout : (snakeCaseToCamelCase s).data = Char.toLower c :: camelGo rest false := by
      simp only [snakeCaseToCamelCase, hd]
    constructor
    · rw [hout, hlc]
      intro hmem
      rcases List.mem_cons.mp hmem with h1 | h2
      · exact hcne h1.symm
      · exact hnur h2
    · have h2 := snake_cons hout
      rw [h2, hlc, camelGo_fixed hnur]
      exact (snake_cons hd).symm ▸ (by rw [hlc])

/-! ### Algebra of `EmitResult` and substring occurrence -/

theorem seq_eq_ok {a b : EmitResult} (h : a.ok = true) :
    a.seq b = ⟨a.out ++ b.out, b.ok⟩ := by
  unfold EmitResult.seq; rw [if_pos h]

theorem seq_out {a b : EmitResult} (h : a.ok = true) :
    (a.seq b).out = a.out ++ b.out := by rw [seq_eq_ok h]

theorem seq_ok_iff (a b : EmitResult) : (a.seq b).ok = (a.ok && b.ok) := by
  unfold EmitResult.seq
  by_cases h : a.ok = true
  · rw [if_pos h, h]; simp
  · rw [if_neg h]
    have : a.ok = false := by revert h; cases a.ok <;> simp
    rw [this]; simp

/-- The concatenation of the `out` fields of a list of fragments. -/
def outJoin (l : List EmitResult) : String :=
  l.foldr (fun e acc => e.out ++ acc) ""

theorem emitConcat_ok_iff (l : List EmitResult) :
    (emitConcat l).ok = true ↔ ∀ e ∈ l, e.ok = true := by
  induction l with
  | nil => simp [emitConcat]
  | cons a rest ih =>
    unfold emitConcat
    rw [seq_ok_iff, Bool.and_eq_true, ih]
    simp

theorem emitConcat_out_ok {l : List EmitResult} (h : ∀ e ∈ l, e.ok = true) :
    (emitConcat l).out = outJoin l := by
  induction l with
  | nil => rfl
  | cons a rest ih =>
    unfold emitConcat outJoin
    rw [seq_out (h a (by simp))]
    unfold outJoin at ih
    rw [ih (fun e he => h e (by simp [he]))]
    rfl

/-- `needle` occurs in `hay`. -/
def Substr (needle hay : String) : Prop := ∃ a b : String, hay = a ++ (needle ++ b)

theorem substr_here (n pre post : String) : Substr n (pre ++ (n ++ post)) := ⟨pre, post, rfl⟩

theorem substr_appendL {n h : String} (x : String) (hs : Substr n h) : Substr n (x ++ h) := by
  obtain ⟨a, b, rfl⟩ := hs
  exact ⟨x ++ a, b, by rw [String.append_assoc]⟩

theorem substr_appendR {n h : String} (x : String) (hs : Substr n h) : Substr n (h ++ x) := by
  obtain ⟨a, b, rfl⟩ := hs
  exact ⟨a, b ++ x, by rw [String.append_assoc, String.append_assoc]⟩

theorem substr_refl (n : String) : Substr n n :=
  ⟨"", "", by rw [String.append_empty]; rfl⟩

theorem substr_trans {a b c : String} (h1 : Substr a b) (h2 : Substr b c) :
    Substr a c := by
  obtain ⟨x, y, rfl⟩ := h1
  obtain ⟨u, v, rfl⟩ := h2
  exact ⟨u ++ x, y ++ v, by simp [String.append_assoc]⟩

theorem substr_outJoin_of_mem {e : EmitResult} {l : List EmitResult} (he : e ∈ l) :
    Substr e.out (outJoin l) := by
  induction l with
  | nil => cases he
  | cons a rest ih =>
    rcases List.mem_cons.mp he with h1 | h2
    · subst h1
      unfold outJoin
      exact substr_appendR _ (substr_refl e.out)
    · unfold outJoin
      exact substr_appendL _ (ih h2)


/-! ### Decomposition of the emitted text on successful execution -/

theorem requiredCheck_ok (p : Parameter) : (requiredCheck p).ok = true := by
  unfold requiredCheck; split <;> rfl

theorem pathReplace_ok (p : Parameter) : (pathReplace p).ok = true := by
  unfold pathReplace; split <;> rfl

theorem queryEntry_ok (p : Parameter) : (queryEntry p).ok = true := by
  unfold queryEntry; split <;> rfl

theorem bodyStmt_ok (p : Parameter) : (bodyStmt p).ok = true := by
  unfold bodyStmt; split <;> rfl

/-- The signature entries of a method (each parameter with its trailing
space). -/
def sigsText (op : Operation) : String :=
  outJoin (op.parameters.map (fun p => (paramSig p).seq (emitStr " ")))

/-- All required-parameter guards of a method. -/
def checksText (op : Operation) : String :=
  outJoin (op.parameters.map requiredCheck)

/-- All `.replace` entries of a method. -/
def replacesText (op : Operation) : String :=
  outJoin (op.parameters.map pathReplace)

/-- All query-object entries of a method. -/
def queriesText (op : Operation) : String :=
  outJoin (op.parameters.map queryEntry)

/-- All body-serialization statements of a method. -/
def bodiesText (op : Operation) : String :=
  outJoin (op.parameters.map bodyStmt)

theorem methodBlock_out {u m : String} {op : Operation}
    (h : (methodBlock u m op).ok = true) :
    (methodBlock u m op).out =
      methodHeader op ++ (sigsText op ++
      (("options: any = \x7b\x7d): Promise<" ++ returnType op ++ "> \x7b") ++
      (checksText op ++
      (("\n      const urlPath = \"" ++ u ++ "\"") ++
      (replacesText op ++
      (";\n\n      const queryParams = \x7b" ++
      (queriesText op ++
      ("\n      \x7d as any;\n\n      let _body = null;" ++
      (bodiesText op ++ doFetchReturn m))))))))) := by
  have hsig : (emitConcat (op.parameters.map (fun p => (paramSig p).seq (emitStr " ")))).ok = true := by
    unfold methodBlock at h
    rw [seq_ok_iff, seq_ok_iff] at h
    simp only [Bool.and_eq_true] at h
    exact h.2.1
  have hchk : ∀ e ∈ op.parameters.map requiredCheck, e.ok = true := by
    intro e he
    obtain ⟨p, _, rfl⟩ := List.mem_map.mp he
    exact requiredCheck_ok p
  have hrep : ∀ e ∈ op.parameters.map pathReplace, e.ok = true := by
    intro e he
    obtain ⟨p, _, rfl⟩ := List.mem_map.mp he
    exact pathReplace_ok p
  have hqry : ∀ e ∈ op.parameters.map queryEntry, e.ok = true := by
    intro e he
    obtain ⟨p, _, rfl⟩ := List.mem_map.mp he
    exact queryEntry_ok p
  have hbod : ∀ e ∈ op.parameters.map bodyStmt, e.ok = true := by
    intro e he
    obtain ⟨p, _, rfl⟩ := List.mem_map.mp he
    exact bodyStmt_ok p
  unfold methodBlock
  rw [seq_out rfl, seq_out hsig, seq_out rfl,
    seq_out ((emitConcat_ok_iff _).mpr hchk), seq_out rfl,
    seq_out ((emitConcat_ok_iff _).mpr hrep), seq_out rfl,
    seq_out ((emitConcat_ok_iff _).mpr hqry), seq_out rfl,
    seq_out ((emitConcat_ok_iff _).mpr hbod)]
  rw [emitConcat_out_ok hchk, emitConcat_out_ok hrep, emitConcat_out_ok hqry,
    emitConcat_out_ok hbod, emitConcat_out_ok ((emitConcat_ok_iff _).mp hsig)]
  rfl



/-- The property blocks of one definition, in emitted (sorted) order. -/
def propsText (d : Definition) : String :=
  outJoin ((sortedEntries d.properties).map (fun e => propertyBlock e.1 e.2))

theorem definitionBlock_out {n : String} {d : Definition}
    (h : (definitionBlock n d).ok = true) :
    (definitionBlock n d).out =
      ("\n/** " ++ d.description ++ " */\nexport interface " ++
        stringsTitle n ++ " \x7b") ++ (propsText d ++ "\n\x7d") := by
  have hp : (emitConcat ((sortedEntries d.properties).map
      (fun e => propertyBlock e.1 e.2))).ok = true := by
    unfold definitionBlock at h
    rw [seq_ok_iff, seq_ok_iff] at h
    simp only [Bool.and_eq_true] at h
    exact h.2.1
  unfold definitionBlock
  rw [seq_out rfl, seq_out hp, emitConcat_out_ok ((emitConcat_ok_iff _).mp hp)]
  rfl

theorem generate_parts {s : Schema} (h : (generate s).ok = true) :
    (definitionsRender s).ok = true ∧ (pathsRender s).ok = true := by
  unfold generate at h
  rw [seq_ok_iff, seq_ok_iff, seq_ok_iff, seq_ok_iff] at h
  simp only [Bool.and_eq_true] at h
  exact ⟨h.2.1, h.2.2.2.1⟩

theorem generate_out {s : Schema} (h : (generate s).ok = true) :
    (generate s).out =
      staticPrefix ++ ((definitionsRender s).out ++
        (nakamaFactoryText ++ ((pathsRender s).out ++ staticSuffix))) := by
  obtain ⟨h1, h2⟩ := generate_parts h
  unfold generate
  rw [seq_out rfl, seq_out h1, seq_out rfl, seq_out h2]
  rfl

theorem definitionsRender_out {s : Schema} (h : (definitionsRender s).ok = true) :
    (definitionsRender s).out =
      outJoin ((sortedEntries s.definitions).map (fun e => definitionBlock e.1 e.2)) := by
  unfold definitionsRender at h ⊢
  exact emitConcat_out_ok ((emitConcat_ok_iff _).mp h)

theorem pathsRender_out {s : Schema} (h : (pathsRender s).ok = true) :
    (pathsRender s).out =
      outJoin ((sortedEntries s.paths).map (fun u =>
        emitConcat ((sortedEntries u.2).map (fun m => methodBlock u.1 m.1 m.2)))) := by
  unfold pathsRender at h ⊢
  exact emitConcat_out_ok ((emitConcat_ok_iff _).mp h)

/-! ### Maps up to iteration order: determinism of the rendering -/

variable {α : Type}

/-- The keys of an association list are pairwise distinct (a real Go map). -/
def keysNodup (l : List (String × α)) : Prop := (l.map Prod.fst).Nodup

/-- Entries with equal keys and related values. -/
def EntryRel (r : α → α → Prop) (a b : String × α) : Prop := a.1 = b.1 ∧ r a.2 b.2

/-- `l₂` holds the same map as `l₁`: a permutation of `l₁` matches `l₂`
entrywise with equal keys and `r`-related values. -/
def MapRel (r : α → α → Prop) (l₁ l₂ : List (String × α)) : Prop :=
  ∃ m, l₁.Perm m ∧ List.Forall₂ (EntryRel r) m l₂

/-- Relate options: both absent, or both present with related values. -/
def OptRel (r : α → α → Prop) : Option α → Option α → Prop
  | none, none => True
  | some a, some b => r a b
  | _, _ => False

theorem forall₂_keys {r : α → α → Prop} {m l₂ : List (String × α)}
    (h : List.Forall₂ (EntryRel r) m l₂) : m.map Prod.fst = l₂.map Prod.fst := by
  induction h with
  | nil => rfl
  | cons hab _ ih => simp only [List.map_cons, ih, hab.1]

theorem lookupA_perm {l₁ l₂ : List (String × α)} (p : l₁.Perm l₂)
    (nd : keysNodup l₁) (k : String) : lookupA k l₁ = lookupA k l₂ := by
  induction p with
  | nil => rfl
  | cons x _ ih =>
    unfold lookupA
    by_cases hk : k = x.1
    · simp [hk]
    · simp only [hk, if_false]
      exact ih (by
        have := nd
        unfold keysNodup at this ⊢
        simp only [List.map_cons, List.nodup_cons] at this
        exact this.2)
  | swap x y l =>
    have hxy : y.1 ≠ x.1 := by
      unfold keysNodup at nd
      simp only [List.map_cons, List.nodup_cons, List.mem_cons] at nd
      exact fun h => nd.1 (Or.inl h)
    simp only [lookupA]
    by_cases hky : k = y.1
    · have hkx : k ≠ x.1 := fun h => hxy (hky.symm.trans h)
      simp [hky, hkx, hxy]
    · by_cases hkx : k = x.1
      · simp only [hky, hkx, if_false, if_true, if_neg hky]
        rw [if_neg (fun h : x.1 = y.1 => hxy h.symm)]
      · simp [hky, hkx]
  | trans p₁ p₂ ih₁ ih₂ =>
    rw [ih₁ nd]
    refine ih₂ ?_
    unfold keysNodup at nd ⊢
    exact nd.perm (p₁.map Prod.fst)

theorem forall₂_lookupA {r : α → α → Prop} {m l₂ : List (String × α)}
    (h : List.Forall₂ (EntryRel r) m l₂) (k : String) :
    OptRel r (lookupA k m) (lookupA k l₂) := by
  induction h with
  | nil => trivial
  | cons hab hrest ih =>
    rename_i a b m' l₂'
    simp only [lookupA]
    by_cases hk : k = a.1
    · rw [if_pos hk, if_pos (hab.1 ▸ hk)]
      exact hab.2
    · rw [if_neg hk, if_neg (fun hh => hk (hab.1 ▸ hh))]
      exact ih

theorem lookupA_isSome_of_mem_keys {l : List (String × α)} {k : String}
    (h : k ∈ l.map Prod.fst) : ∃ v, lookupA k l = some v := by
  induction l with
  | nil => cases h
  | cons a rest ih =>
    simp only [List.map_cons, List.mem_cons] at h
    simp only [lookupA]
    by_cases hk : k = a.1
    · exact ⟨a.2, by rw [if_pos hk]⟩
    · rcases h with h1 | h2
      · exact absurd h1 hk
      · rw [if_neg hk]; exact ih h2

theorem lookupA_mem {l : List (String × α)} {k : String} {v : α}
    (h : lookupA k l = some v) : (k, v) ∈ l := by
  induction l with
  | nil => cases h
  | cons a rest ih =>
    simp only [lookupA] at h
    by_cases hk : k = a.1
    · rw [if_pos hk] at h
      simp only [Option.some.injEq] at h
      have : (k, v) = a := by
        cases a
        simp only [Prod.mk.injEq]
        exact ⟨hk, h.symm⟩
      rw [this]
      exact List.mem_cons_self a rest
    · rw [if_neg hk] at h
      exact List.mem_cons_of_mem a (ih h)

theorem lookupA_eq_of_mem_nodup {l : List (String × α)} {k : String} {v : α}
    (nd : keysNodup l) (h : (k, v) ∈ l) : lookupA k l = some v := by
  induction l with
  | nil => cases h
  | cons a rest ih =>
    unfold keysNodup at nd
    simp only [List.map_cons, List.nodup_cons] at nd
    rcases List.mem_cons.mp h with h1 | h2
    · simp [lookupA, ← h1]
    · simp only [lookupA]
      rw [if_neg (fun hk : k = a.1 => nd.1 (hk ▸ List.mem_map_of_mem Prod.fst h2))]
      exact ih nd.2 h2

theorem sortKeys_perm_eq {k₁ k₂ : List String} (p : k₁.Perm k₂) :
    List.insertionSort (fun a b : String => a ≤ b) k₁ =
    List.insertionSort (fun a b : String => a ≤ b) k₂ := by
  refine @List.eq_of_perm_of_sorted String (fun a b : String => a ≤ b) ?_ _ _ ?_ ?_ ?_
  · constructor
    intro a b h1 h2
    exact le_antisymm h1 h2
  · exact ((List.perm_insertionSort _ k₁).trans p).trans (List.perm_insertionSort _ k₂).symm
  · exact List.sorted_insertionSort _ k₁
  · exact List.sorted_insertionSort _ k₂

theorem forall₂_map_of_mem {β : Type} {R : β → β → Prop} {f g : String → β}
    (ks : List String) (h : ∀ k ∈ ks, R (f k) (g k)) :
    List.Forall₂ R (ks.map f) (ks.map g) := by
  induction ks with
  | nil => exact List.Forall₂.nil
  | cons k rest ih =>
    exact List.Forall₂.cons (h k (by simp)) (ih (fun k2 hk2 => h k2 (by simp [hk2])))

theorem mapRel_keys_perm {r : α → α → Prop} {l₁ l₂ : List (String × α)}
    (h : MapRel r l₁ l₂) : (l₁.map Prod.fst).Perm (l₂.map Prod.fst) := by
  obtain ⟨m, hp, hf⟩ := h
  rw [← forall₂_keys hf]
  exact hp.map Prod.fst

theorem mapRel_sortedEntries [Inhabited α] {r : α → α → Prop}
    {l₁ l₂ : List (String × α)} (h : MapRel r l₁ l₂) (nd : keysNodup l₁) :
    List.Forall₂ (EntryRel r) (sortedEntries l₁) (sortedEntries l₂) := by
  obtain ⟨m, hp, hf⟩ := h
  have hkeys : List.insertionSort (fun a b : String => a ≤ b) (l₁.map Prod.fst) =
      List.insertionSort (fun a b : String => a ≤ b) (l₂.map Prod.fst) :=
    sortKeys_perm_eq (mapRel_keys_perm ⟨m, hp, hf⟩)
  unfold sortedEntries
  rw [← hkeys]
  refine forall₂_map_of_mem _ (fun k hk => ?_)
  have hkmem : k ∈ l₁.map Prod.fst := (List.perm_insertionSort _ _).mem_iff.mp hk
  obtain ⟨v₁, hv₁⟩ := lookupA_isSome_of_mem_keys hkmem
  have h12 : lookupA k l₁ = lookupA k m := lookupA_perm hp nd k
  have hrel : OptRel r (lookupA k m) (lookupA k l₂) := forall₂_lookupA hf k
  rw [← h12, hv₁] at hrel
  cases hv2 : lookupA k l₂ with
  | none => rw [hv2] at hrel; cases hrel
  | some v₂ =>
    rw [hv2] at hrel
    refine ⟨rfl, ?_⟩
    simp only [hv₁, hv2, Option.getD_some]
    exact hrel

theorem forall₂_entryRel_eq {l₁ l₂ : List (String × α)}
    (h : List.Forall₂ (EntryRel Eq) l₁ l₂) : l₁ = l₂ := by
  induction h with
  | nil => rfl
  | cons hab _ ih =>
    exact congrArg₂ List.cons (Prod.ext hab.1 hab.2) ih

theorem mapRel_of_perm {l₁ l₂ : List (String × α)} (p : l₁.Perm l₂) :
    MapRel Eq l₁ l₂ := by
  refine ⟨l₂, p, ?_⟩
  rw [List.forall₂_same]
  exact fun x _ => ⟨rfl, rfl⟩

theorem sortedEntries_perm_eq [Inhabited α] {l₁ l₂ : List (String × α)}
    (p : l₁.Perm l₂) (nd : keysNodup l₁) : sortedEntries l₁ = sortedEntries l₂ :=
  forall₂_entryRel_eq (mapRel_sortedEntries (mapRel_of_perm p) nd)

theorem sortedEntries_mem [Inhabited α] {l : List (String × α)} {e : String × α}
    (h : e ∈ sortedEntries l) : e ∈ l := by
  unfold sortedEntries at h
  obtain ⟨k, hk, rfl⟩ := List.mem_map.mp h
  have hkmem : k ∈ l.map Prod.fst := (List.perm_insertionSort _ _).mem_iff.mp hk
  obtain ⟨v, hv⟩ := lookupA_isSome_of_mem_keys hkmem
  rw [hv]
  exact lookupA_mem hv

theorem mem_sortedEntries_of_mem [Inhabited α] {l : List (String × α)}
    {e : String × α} (nd : keysNodup l) (h : e ∈ l) : e ∈ sortedEntries l := by
  unfold sortedEntries
  refine List.mem_map.mpr ⟨e.1, ?_, ?_⟩
  · exact (List.perm_insertionSort _ _).mem_iff.mpr (List.mem_map_of_mem Prod.fst h)
  · cases e with
    | mk k v =>
      have : lookupA k l = some v := lookupA_eq_of_mem_nodup nd h
      simp [this]

/-- Two definitions holding the same data up to properties iteration order. -/
def DefRel (d₁ d₂ : Definition) : Prop :=
  d₁.description = d₂.description ∧ d₁.properties.Perm d₂.properties

/-- The same document up to iteration order of every map in it. -/
def SchemaRel (s₁ s₂ : Schema) : Prop :=
  MapRel DefRel s₁.definitions s₂.definitions ∧
  MapRel (fun a b => List.Perm a b) s₁.paths s₂.paths

/-- Unique keys in every map of the document (true of any Go map). -/
def WellFormed (s : Schema) : Prop :=
  keysNodup s.definitions ∧ (∀ e ∈ s.definitions, keysNodup e.2.properties) ∧
  keysNodup s.paths ∧ (∀ e ∈ s.paths, keysNodup e.2)

theorem definitionBlock_congr {n : String} {d₁ d₂ : Definition}
    (h : DefRel d₁ d₂) (nd : keysNodup d₁.properties) :
    definitionBlock n d₁ = definitionBlock n d₂ := by
  unfold definitionBlock
  rw [h.1, sortedEntries_perm_eq h.2 nd]

theorem map_eq_of_forall₂render {β γ : Type} {R : β → β → Prop} {f : β → γ}
    {xs ys : List β} (h : List.Forall₂ R xs ys)
    (hf : ∀ x y, x ∈ xs → R x y → f x = f y) : xs.map f = ys.map f := by
  induction h with
  | nil => rfl
  | cons hab hr ih =>
    exact congrArg₂ List.cons (hf _ _ (by simp) hab)
      (ih (fun x y hx hxy => hf x y (by simp [hx]) hxy))

theorem definitionsRender_congr {s₁ s₂ : Schema}
    (h : MapRel DefRel s₁.definitions s₂.definitions)
    (nd : keysNodup s₁.definitions)
    (ndp : ∀ e ∈ s₁.definitions, keysNodup e.2.properties) :
    definitionsRender s₁ = definitionsRender s₂ := by
  unfold definitionsRender
  refine congrArg emitConcat ?_
  refine map_eq_of_forall₂render (mapRel_sortedEntries h nd) ?_
  intro x y hx hxy
  have h1 : x.1 = y.1 := hxy.1
  have h2 : definitionBlock x.1 x.2 = definitionBlock x.1 y.2 :=
    definitionBlock_congr hxy.2 (ndp x (sortedEntries_mem hx))
  rw [h2, h1]

theorem pathsRender_congr {s₁ s₂ : Schema}
    (h : MapRel (fun a b => List.Perm a b) s₁.paths s₂.paths)
    (nd : keysNodup s₁.paths)
    (ndm : ∀ e ∈ s₁.paths, keysNodup e.2) :
    pathsRender s₁ = pathsRender s₂ := by
  unfold pathsRender
  refine congrArg emitConcat ?_
  refine map_eq_of_forall₂render (mapRel_sortedEntries h nd) ?_
  intro x y hx hxy
  have h1 : x.1 = y.1 := hxy.1
  have h2 : sortedEntries x.2 = sortedEntries y.2 :=
    sortedEntries_perm_eq hxy.2 (ndm x (sortedEntries_mem hx))
  rw [← h1, h2]

theorem generate_of_schemaRel {s₁ s₂ : Schema}
    (h : SchemaRel s₁ s₂) (wf : WellFormed s₁) : generate s₁ = generate s₂ := by
  unfold generate
  rw [definitionsRender_congr h.1 wf.1 wf.2.1,
      pathsRender_congr h.2 wf.2.2.1 wf.2.2.2]

/-! ### The claims -/

/-- Claim C3: `refToTypeName("#/definitions/leaderboard_record")` returns
`"Leaderboard_record"`; in general, for a definitions pointer over
snake_case material, only the first character of the remaining string is
capitalized, and internal underscores and the characters after them are
left unchanged. -/
theorem claim_C3_refToTypeName_capitalizes_only_first :
    convertRefToClassName "#/definitions/leaderboard_record" = "Leaderboard_record" ∧
    ∀ s : String, (∀ c ∈ s.data, SnakeChar c) →
      convertRefToClassName ("#/definitions/" ++ s) = capitalizeFirst s := by
  constructor
  · decide
  · intro s hs
    unfold convertRefToClassName
    rw [trimPrefix_append]
    exact stringsTitle_snake s hs

theorem claim_C3_witness :
    (∀ c ∈ "leaderboard_record".data, SnakeChar c) ∧
    convertRefToClassName ("#/definitions/" ++ "leaderboard_record") =
      capitalizeFirst "leaderboard_record" :=
  ⟨by decide,
   claim_C3_refToTypeName_capitalizes_only_first.2 "leaderboard_record" (by decide)⟩

/-- Claim C4 counterexample: `"a__b"` consists only of lowercase letters,
digits and underscores, yet `snakeCaseToCamelCase` maps it to `"a_b"`,
which still contains an underscore, and a second application yields `"aB"`:
the function is not idempotent on this output. -/
theorem claim_C4_counterexample :
    (∀ c ∈ "a__b".data, SnakeChar c) ∧
    snakeCaseToCamelCase "a__b" = "a_b" ∧
    '_' ∈ (snakeCaseToCamelCase "a__b").data ∧
    snakeCaseToCamelCase (snakeCaseToCamelCase "a__b") ≠ snakeCaseToCamelCase "a__b" := by
  refine ⟨by decide, by decide, by decide, by decide⟩

/-- Claim C4, amended: for every input of lowercase ASCII letters, digits
and underscores that does not begin with an underscore and has no two
adjacent underscores, the output of `snakeCaseToCamelCase` contains no
underscore, and applying the function to its own output returns that output
unchanged. -/
theorem claim_C4_camelCase_no_underscore_idempotent (s : String)
    (hs : ∀ c ∈ s.data, SnakeChar c)
    (hh : s.data.head? ≠ some '_')
    (hc : NoDoubleUnderscore s.data) :
    '_' ∉ (snakeCaseToCamelCase s).data ∧
    snakeCaseToCamelCase (snakeCaseToCamelCase s) = snakeCaseToCamelCase s :=
  snake_camel_props s hs hh hc

theorem claim_C4_witness :
    ((∀ c ∈ "user_id".data, SnakeChar c) ∧ "user_id".data.head? ≠ some '_' ∧
      NoDoubleUnderscore "user_id".data) ∧
    '_' ∉ (snakeCaseToCamelCase "user_id").data ∧
    snakeCaseToCamelCase (snakeCaseToCamelCase "user_id") = snakeCaseToCamelCase "user_id" :=
  ⟨⟨by decide, by decide, by decide⟩,
   claim_C4_camelCase_no_underscore_idempotent "user_id" (by decide) (by decide) (by decide)⟩

/-- Claim C2, evaluated at its failing input (a code bug): a definition
property with type `object` whose `additionalProperties` has type `integer`
is emitted as `Map<string, integer>`, not `Map<string, number>` — `integer`
is not a TypeScript type, and every other `integer` branch of the template
(plain field, array items, parameter) maps the tag to `number`. -/
theorem claim_C2_integer_map_emits_integer_not_number :
    fieldLine "f" ⟨"object", "", ⟨"", ""⟩, ⟨"integer"⟩, "", ""⟩ =
      emitStr "\n  f?: Map<string, integer>;" ∧
    fieldLine "f" ⟨"object", "", ⟨"", ""⟩, ⟨"integer"⟩, "", ""⟩ ≠
      emitStr "\n  f?: Map<string, number>;" := by
  refine ⟨by decide, by decide⟩

/-- Claim C9: a definition property whose type tag is none of integer,
number, boolean, string, array, object (including an absent/empty tag)
falls through to the reference case: the emitted field type is the class
name derived from the property's `$ref`, and when `$ref` is empty the
emitted type name is empty rather than the field being dropped. -/
theorem claim_C9_unknown_tag_falls_through_to_ref (n : String) (p : Property)
    (h : p.type ∉ (["integer", "number", "boolean", "array", "object", "string"] : List String)) :
    fieldLine n p = emitStr ("\n  " ++ n ++ "?: " ++ convertRefToClassName p.ref ++ ";") ∧
    (p.ref = "" → fieldLine n p = emitStr ("\n  " ++ n ++ "?: " ++ ";")) := by
  simp only [List.mem_cons, List.not_mem_nil, or_false, not_or] at h
  obtain ⟨h1, h2, h3, h4, h5, h6⟩ := h
  have hline : fieldLine n p =
      emitStr ("\n  " ++ n ++ "?: " ++ convertRefToClassName p.ref ++ ";") := by
    unfold fieldLine
    rw [if_neg h1, if_neg h2, if_neg h3, if_neg h4, if_neg h5, if_neg h6]
  refine ⟨hline, fun hr => ?_⟩
  rw [hline, hr, show convertRefToClassName "" = "" from rfl, String.append_empty]

theorem claim_C9_witness :
    ((⟨"", "", ⟨"", ""⟩, ⟨""⟩, "", ""⟩ : Property).type ∉
      (["integer", "number", "boolean", "array", "object", "string"] : List String)) ∧
    fieldLine "bar" ⟨"", "", ⟨"", ""⟩, ⟨""⟩, "", ""⟩ =
      emitStr ("\n  " ++ "bar" ++ "?: " ++ convertRefToClassName "" ++ ";") ∧
    fieldLine "bar" ⟨"", "", ⟨"", ""⟩, ⟨""⟩, "", ""⟩ =
      emitStr ("\n  " ++ "bar" ++ "?: " ++ ";") := by
  have h := claim_C9_unknown_tag_falls_through_to_ref "bar"
    ⟨"", "", ⟨"", ""⟩, ⟨""⟩, "", ""⟩ (by decide)
  exact ⟨by decide, h.1, h.2 rfl⟩

/-- Claim C8 counterexample: a parameter whose location is `header` (none
of path/query/body) with type tag `integer` is emitted with type `number`,
not with its bare type tag `integer`. -/
theorem claim_C8_counterexample :
    (paramSig ⟨"x_limit", "header", true, "integer", ⟨""⟩, ⟨"", ""⟩⟩).out =
      "xLimit: number," ∧
    (paramSig ⟨"x_limit", "header", true, "integer", ⟨""⟩, ⟨"", ""⟩⟩).out ≠
      "xLimit: integer," := by
  refine ⟨by decide, by decide⟩

/-- Claim C8, amended: a parameter whose location is none of path, query,
body still appears in the generated call signature, typed by the shared
non-body tag rules — `integer` becomes `number`, `array` becomes
`Array<items.type>`, any other tag is emitted verbatim, and a tag of
`object` makes template execution fail (the parameter struct has no
`AdditionalProperties` field) — while the path-substitution, query-mapping
and body-serialization wiring steps all skip it; generation succeeds
whenever the tag is not `object`. -/
theorem claim_C8_nonwire_param_in_signature (p : Parameter)
    (h : p.inLocation ∉ (["path", "query", "body"] : List String)) :
    (p.type ∉ (["array", "object"] : List String) →
      paramSig p = emitStr (snakeCaseToCamelCase p.name ++
        (if p.required then "" else "?") ++ ": " ++
        (if p.type = "integer" then "number" else p.type) ++ ",")) ∧
    (p.type = "array" →
      paramSig p = emitStr (snakeCaseToCamelCase p.name ++
        (if p.required then "" else "?") ++ ": Array<" ++ p.items.type ++ ">,")) ∧
    (p.type = "object" → (paramSig p).ok = false) ∧
    (p.type ≠ "object" → (paramSig p).ok = true) ∧
    pathReplace p = emitStr "" ∧ queryEntry p = emitStr "" ∧ bodyStmt p = emitStr "" := by
  simp only [List.mem_cons, List.not_mem_nil, or_false, not_or] at h
  obtain ⟨hp, hq, hb⟩ := h
  refine ⟨?_, ?_, ?_, ?_, ?_, ?_, ?_⟩
  · intro ht
    simp only [List.mem_cons, List.not_mem_nil, or_false, not_or] at ht
    obtain ⟨ha, ho⟩ := ht
    unfold paramSig
    rw [if_neg hp, if_neg hb, if_neg ha, if_neg ho]
    by_cases hi : p.type = "integer"
    · rw [if_pos hi, if_pos hi]
      simp only [String.append_assoc]
      rfl
    · rw [if_neg hi, if_neg hi]
  · intro ht
    unfold paramSig
    rw [if_neg hp, if_neg hb, if_pos ht]
  · intro ht
    unfold paramSig
    rw [if_neg hp, if_neg hb, if_neg (by rw [ht]; decide), if_pos ht]
    rfl
  · intro ht
    unfold paramSig
    rw [if_neg hp, if_neg hb]
    by_cases ha : p.type = "array"
    · rw [if_pos ha]; rfl
    · rw [if_neg ha, if_neg ht]
      by_cases hi : p.type = "integer"
      · rw [if_pos hi]; rfl
      · rw [if_neg hi]; rfl
  · unfold pathReplace; rw [if_neg hp]
  · unfold queryEntry; rw [if_neg hq]
  · unfold bodyStmt; rw [if_neg hb]

theorem claim_C8_witness :
    (("header" : String) ∉ (["path", "query", "body"] : List String)) ∧
    paramSig ⟨"x_tag", "header", true, "string", ⟨""⟩, ⟨"", ""⟩⟩ =
      emitStr (snakeCaseToCamelCase "x_tag" ++ "" ++ ": " ++ "string" ++ ",") ∧
    (paramSig ⟨"x_tag", "header", true, "string", ⟨""⟩, ⟨"", ""⟩⟩).ok = true ∧
    pathReplace ⟨"x_tag", "header", true, "string", ⟨""⟩, ⟨"", ""⟩⟩ = emitStr "" := by
  have h := claim_C8_nonwire_param_in_signature
    ⟨"x_tag", "header", true, "string", ⟨""⟩, ⟨"", ""⟩⟩ (by decide)
  refine ⟨by decide, ?_, h.2.2.2.1 (by decide), h.2.2.2.2.1⟩
  have h1 := h.1 (by decide)
  simpa using h1

/-- Claim C7: for every operation whose method is generated successfully,
the argument list consists of the schema-declared parameter entries
(`sigsText`) followed immediately by the synthesized options argument,
which is always last, optional with an empty-object default, spelled
exactly `options: any = {})` — regardless of how many parameters precede
it. -/
theorem claim_C7_options_argument_always_last (u m : String) (op : Operation)
    (h : (methodBlock u m op).ok = true) :
    ∃ rest : String,
      (methodBlock u m op).out =
        methodHeader op ++ (sigsText op ++ ("options: any = \x7b\x7d): Promise<" ++ rest)) := by
  refine ⟨returnType op ++ ("> \x7b" ++ (checksText op ++
    (("\n      const urlPath = \"" ++ u ++ "\"") ++ (replacesText op ++
    (";\n\n      const queryParams = \x7b" ++ (queriesText op ++
    ("\n      \x7d as any;\n\n      let _body = null;" ++
    (bodiesText op ++ doFetchReturn m)))))))), ?_⟩
  rw [methodBlock_out h]
  simp only [String.append_assoc]

theorem claim_C7_witness :
    (methodBlock "/v1/x" "get"
      ⟨"s", "op_a", ⟨⟨⟨""⟩⟩⟩, [⟨"id", "path", true, "string", ⟨""⟩, ⟨"", ""⟩⟩]⟩).ok = true ∧
    ∃ rest : String,
      (methodBlock "/v1/x" "get"
        ⟨"s", "op_a", ⟨⟨⟨""⟩⟩⟩, [⟨"id", "path", true, "string", ⟨""⟩, ⟨"", ""⟩⟩]⟩).out =
        methodHeader ⟨"s", "op_a", ⟨⟨⟨""⟩⟩⟩, [⟨"id", "path", true, "string", ⟨""⟩, ⟨"", ""⟩⟩]⟩ ++
          (sigsText ⟨"s", "op_a", ⟨⟨⟨""⟩⟩⟩, [⟨"id", "path", true, "string", ⟨""⟩, ⟨"", ""⟩⟩]⟩ ++
            ("options: any = \x7b\x7d): Promise<" ++ rest)) :=
  ⟨by decide,
   claim_C7_options_argument_always_last "/v1/x" "get" _ (by decide)⟩

/-- Claim C6: for every operation generated successfully and every
parameter of it marked required, the method body contains — before the
closing `return napi.doFetch(...)` dispatch statement — a guard that
compares the parameter's camelCase argument name against null and
undefined and throws an error naming that argument. -/
theorem claim_C6_required_guard_before_dispatch (u m : String) (op : Operation)
    (p : Parameter) (hp : p ∈ op.parameters) (hreq : p.required = true)
    (h : (methodBlock u m op).ok = true) :
    ∃ pre mid : String,
      (methodBlock u m op).out =
        pre ++ (requiredCheckText (snakeCaseToCamelCase p.name) ++
          (mid ++ doFetchReturn m)) := by
  have hchk : Substr (requiredCheckText (snakeCaseToCamelCase p.name)) (checksText op) := by
    have hmem : requiredCheck p ∈ op.parameters.map requiredCheck :=
      List.mem_map_of_mem requiredCheck hp
    have hout : (requiredCheck p).out = requiredCheckText (snakeCaseToCamelCase p.name) := by
      unfold requiredCheck
      rw [if_pos hreq]
      rfl
    rw [← hout]
    exact substr_outJoin_of_mem hmem
  obtain ⟨a, b, hab⟩ := hchk
  refine ⟨methodHeader op ++ (sigsText op ++
      (("options: any = \x7b\x7d): Promise<" ++ returnType op ++ "> \x7b") ++ a)),
    b ++ (("\n      const urlPath = \"" ++ u ++ "\"") ++ (replacesText op ++
      (";\n\n      const queryParams = \x7b" ++ (queriesText op ++
      ("\n      \x7d as any;\n\n      let _body = null;" ++ bodiesText op))))), ?_⟩
  rw [methodBlock_out h, hab]
  simp only [String.append_assoc]

theorem claim_C6_witness :
    ((⟨"user_id", "path", true, "string", ⟨""⟩, ⟨"", ""⟩⟩ : Parameter) ∈
      ([⟨"user_id", "path", true, "string", ⟨""⟩, ⟨"", ""⟩⟩] : List Parameter)) ∧
    (⟨"user_id", "path", true, "string", ⟨""⟩, ⟨"", ""⟩⟩ : Parameter).required = true ∧
    (methodBlock "/v1/u/\x7buser_id\x7d" "get"
      ⟨"s", "op_b", ⟨⟨⟨""⟩⟩⟩, [⟨"user_id", "path", true, "string", ⟨""⟩, ⟨"", ""⟩⟩]⟩).ok = true ∧
    ∃ pre mid : String,
      (methodBlock "/v1/u/\x7buser_id\x7d" "get"
        ⟨"s", "op_b", ⟨⟨⟨""⟩⟩⟩, [⟨"user_id", "path", true, "string", ⟨""⟩, ⟨"", ""⟩⟩]⟩).out =
        pre ++ (requiredCheckText (snakeCaseToCamelCase "user_id") ++
          (mid ++ doFetchReturn "get")) :=
  ⟨by decide, by decide, by decide,
   claim_C6_required_guard_before_dispatch "/v1/u/\x7buser_id\x7d" "get"
     ⟨"s", "op_b", ⟨⟨⟨""⟩⟩⟩, [⟨"user_id", "path", true, "string", ⟨""⟩, ⟨"", ""⟩⟩]⟩
     ⟨"user_id", "path", true, "string", ⟨""⟩, ⟨"", ""⟩⟩
     (by decide) (by decide) (by decide)⟩

/-- Claim C10: whenever generation succeeds, the output begins with the
fixed preamble — the generated-code banner, the `BASE_PATH` constant set to
`"http://127.0.0.1:80"`, and the `ConfigurationParameters` interface — and
contains, after the definitions part, the fixed `NakamaApi` factory with
its `doFetch` dispatcher (`nakamaFactoryText`), identical for every input
document; only the definitions part and the operations part vary with the
schema. -/
theorem claim_C10_fixed_preamble_and_dispatcher (s : Schema)
    (h : (generate s).ok = true) :
    ∃ defsPart opsPart : String,
      (generate s).out =
        bannerText ++ (basePathLine ++ (configInterfaceText ++
          (defsPart ++ (nakamaFactoryText ++ (opsPart ++ staticSuffix))))) ∧
      basePathLine = "const BASE_PATH = \"http://127.0.0.1:80\";" := by
  refine ⟨(definitionsRender s).out, (pathsRender s).out, ?_, rfl⟩
  rw [generate_out h]
  unfold staticPrefix
  simp only [String.append_assoc]

theorem claim_C10_witness :
    (generate ⟨[], []⟩).ok = true ∧
    ∃ defsPart opsPart : String,
      (generate ⟨[], []⟩).out =
        bannerText ++ (basePathLine ++ (configInterfaceText ++
          (defsPart ++ (nakamaFactoryText ++ (opsPart ++ staticSuffix))))) ∧
      basePathLine = "const BASE_PATH = \"http://127.0.0.1:80\";" :=
  ⟨rfl, claim_C10_fixed_preamble_and_dispatcher ⟨[], []⟩ rfl⟩

instance {α : Type} (l : List (String × α)) : Decidable (keysNodup l) :=
  inferInstanceAs (Decidable ((l.map Prod.fst).Nodup))

/-- Claim C5: rendering depends only on the document, not on the iteration
order of its maps: two presentations of the same schema — with the
definitions, paths, per-path methods and per-definition properties listed
in any orders — generate identical output, byte for byte.  Together with
`generate` being a function, running generation twice on the same document
always produces identical output text. -/
theorem claim_C5_deterministic_output (s₁ s₂ : Schema)
    (h : SchemaRel s₁ s₂) (wf : WellFormed s₁) : generate s₁ = generate s₂ :=
  generate_of_schemaRel h wf

/-- A two-definition, two-method document. -/
def detProp1 : Property := ⟨"string", "", ⟨"", ""⟩, ⟨""⟩, "", "p1"⟩

def detProp2 : Property := ⟨"integer", "", ⟨"", ""⟩, ⟨""⟩, "", "p2"⟩

def detOpG : Operation := ⟨"g", "op_g", ⟨⟨⟨""⟩⟩⟩, []⟩

def detOpP : Operation := ⟨"p", "op_p", ⟨⟨⟨""⟩⟩⟩, []⟩

def detDefA : Definition := ⟨[("x", detProp1), ("y", detProp2)], "da"⟩

/-- `detDefA` with its properties listed in the opposite order. -/
def detDefA2 : Definition := ⟨[("y", detProp2), ("x", detProp1)], "da"⟩

def detDefB : Definition := ⟨[("z", detProp1)], "db"⟩

def detDocA : Schema :=
  ⟨[("/v1/a", [("get", detOpG), ("post", detOpP)])], [("a", detDefA), ("b", detDefB)]⟩

/-- The same document as `detDocA`, every map listed in a different order. -/
def detDocB : Schema :=
  ⟨[("/v1/a", [("post", detOpP), ("get", detOpG)])], [("b", detDefB), ("a", detDefA2)]⟩

theorem claim_C5_witness :
    SchemaRel detDocA detDocB ∧ WellFormed detDocA ∧
    generate detDocA = generate detDocB := by
  have hrel : SchemaRel detDocA detDocB := by
    constructor
    · refine ⟨[("b", detDefB), ("a", detDefA)], ?_, ?_⟩
      · exact List.Perm.swap ("b", detDefB) ("a", detDefA) []
      · refine List.Forall₂.cons ⟨rfl, rfl, List.Perm.refl _⟩
          (List.Forall₂.cons ⟨rfl, rfl, ?_⟩ List.Forall₂.nil)
        exact List.Perm.swap ("y", detProp2) ("x", detProp1) []
    · refine ⟨detDocA.paths, List.Perm.refl _, ?_⟩
      refine List.Forall₂.cons ⟨rfl, ?_⟩ List.Forall₂.nil
      exact List.Perm.swap ("post", detOpP) ("get", detOpG) []
  have hwf : WellFormed detDocA := by
    refine ⟨by decide, ?_, by decide, ?_⟩
    · intro e he
      fin_cases he <;> decide
    · intro e he
      fin_cases he <;> decide
  exact ⟨hrel, hwf, claim_C5_deterministic_output detDocA detDocB hrel hwf⟩

/-- The fall-through branch of the field type chain: any unhandled tag
renders the `$ref`-derived class name. -/
theorem fieldLine_ref {n : String} {p : Property}
    (h1 : p.type ≠ "integer") (h2 : p.type ≠ "number") (h3 : p.type ≠ "boolean")
    (h4 : p.type ≠ "array") (h5 : p.type ≠ "object") (h6 : p.type ≠ "string") :
    fieldLine n p = emitStr ("\n  " ++ n ++ "?: " ++ convertRefToClassName p.ref ++ ";") := by
  unfold fieldLine
  rw [if_neg h1, if_neg h2, if_neg h3, if_neg h4, if_neg h5, if_neg h6]

/-- Whenever generation succeeds, the field line of a reference-typed
property appears in the output with the class name derived from the
reference string — whether or not that reference resolves. -/
theorem generate_emits_ref_field {s : Schema} {n fn : String} {d : Definition}
    {p : Property}
    (hnd : keysNodup s.definitions) (hmem : (n, d) ∈ s.definitions)
    (hpnd : keysNodup d.properties) (hpmem : (fn, p) ∈ d.properties)
    (h1 : p.type ≠ "integer") (h2 : p.type ≠ "number") (h3 : p.type ≠ "boolean")
    (h4 : p.type ≠ "array") (h5 : p.type ≠ "object") (h6 : p.type ≠ "string")
    (hok : (generate s).ok = true) :
    Substr ("\n  " ++ fn ++ "?: " ++ convertRefToClassName p.ref ++ ";")
      (generate s).out := by
  have hdok : (definitionsRender s).ok = true := (generate_parts hok).1
  have hsm : (n, d) ∈ sortedEntries s.definitions := mem_sortedEntries_of_mem hnd hmem
  have hbm : definitionBlock n d ∈
      (sortedEntries s.definitions).map (fun e => definitionBlock e.1 e.2) :=
    List.mem_map.mpr ⟨(n, d), hsm, rfl⟩
  have hbok : (definitionBlock n d).ok = true := by
    unfold definitionsRender at hdok
    exact (emitConcat_ok_iff _).mp hdok _ hbm
  have hblock : Substr (definitionBlock n d).out (definitionsRender s).out := by
    rw [definitionsRender_out hdok]
    exact substr_outJoin_of_mem hbm
  have hpm : (fn, p) ∈ sortedEntries d.properties := mem_sortedEntries_of_mem hpnd hpmem
  have hpbm : propertyBlock fn p ∈
      (sortedEntries d.properties).map (fun e => propertyBlock e.1 e.2) :=
    List.mem_map.mpr ⟨(fn, p), hpm, rfl⟩
  have hprop : Substr (propertyBlock fn p).out (propsText d) :=
    substr_outJoin_of_mem hpbm
  have hneedle : Substr ("\n  " ++ fn ++ "?: " ++ convertRefToClassName p.ref ++ ";")
      (propertyBlock fn p).out := by
    unfold propertyBlock
    rw [fieldLine_ref h1 h2 h3 h4 h5 h6, seq_out rfl]
    refine ⟨"\n  // " ++ p.description, "", ?_⟩
    rw [String.append_empty]
    rfl
  have hprops : Substr (propsText d) (definitionBlock n d).out := by
    rw [definitionBlock_out hbok]
    exact ⟨"\n/** " ++ d.description ++ " */\nexport interface " ++
      stringsTitle n ++ " \x7b", "\n\x7d", rfl⟩
  have hdefs : Substr (definitionsRender s).out (generate s).out := by
    rw [generate_out hok]
    exact ⟨staticPrefix, nakamaFactoryText ++ ((pathsRender s).out ++ staticSuffix), rfl⟩
  exact substr_trans (substr_trans (substr_trans (substr_trans hneedle hprop) hprops)
    hblock) hdefs


/-- A document whose single definition has a property referencing a
definition name that does not exist in the document. -/
def unresolvedDoc : Schema :=
  ⟨[], [("foo", ⟨[("bar", ⟨"", "#/definitions/missing", ⟨"", ""⟩, ⟨""⟩, "", "b"⟩)], "d"⟩)]⟩

/-- Claim C1 counterexample: `#/definitions/missing` names no definition of
`unresolvedDoc`, yet generation completes without error — no reference
resolution is performed anywhere — and the output contains the field
`bar?: Missing;` typed with the dangling class name instead of generation
aborting. -/
theorem claim_C1_counterexample :
    (∀ e ∈ unresolvedDoc.definitions, "#/definitions/" ++ e.1 ≠ "#/definitions/missing") ∧
    (generate unresolvedDoc).ok = true ∧
    Substr "\n  bar?: Missing;" (generate unresolvedDoc).out := by
  refine ⟨by decide, by decide, ?_⟩
  have h := @generate_emits_ref_field unresolvedDoc "foo" "bar"
    ⟨[("bar", ⟨"", "#/definitions/missing", ⟨"", ""⟩, ⟨""⟩, "", "b"⟩)], "d"⟩
    ⟨"", "#/definitions/missing", ⟨"", ""⟩, ⟨""⟩, "", "b"⟩
    (by decide) (by decide) (by decide) (by decide)
    (by decide) (by decide) (by decide) (by decide) (by decide) (by decide) (by decide)
  have heq : ("\n  " ++ "bar" ++ "?: " ++
      convertRefToClassName "#/definitions/missing" ++ ";") = "\n  bar?: Missing;" := by
    decide
  exact heq ▸ h

/-- Claim C1, amended: generation performs no reference resolution.  A
definition property whose reference names no definition present in the
document does not abort generation; whenever template execution succeeds,
the output contains that field typed with the (dangling) class name derived
from the reference string, rather than generation failing or the field
being dropped. -/
theorem claim_C1_unresolved_ref_not_aborted (s : Schema) (n fn : String)
    (d : Definition) (p : Property)
    (hnd : keysNodup s.definitions) (hmem : (n, d) ∈ s.definitions)
    (hpnd : keysNodup d.properties) (hpmem : (fn, p) ∈ d.properties)
    (htype : p.type ∉
      (["integer", "number", "boolean", "array", "object", "string"] : List String))
    (hunres : ∀ e ∈ s.definitions, "#/definitions/" ++ e.1 ≠ p.ref)
    (hok : (generate s).ok = true) :
    Substr ("\n  " ++ fn ++ "?: " ++ convertRefToClassName p.ref ++ ";")
      (generate s).out := by
  simp only [List.mem_cons, List.not_mem_nil, or_false, not_or] at htype
  obtain ⟨h1, h2, h3, h4, h5, h6⟩ := htype
  exact generate_emits_ref_field hnd hmem hpnd hpmem h1 h2 h3 h4 h5 h6 hok

theorem claim_C1_witness :
    (keysNodup unresolvedDoc.definitions ∧
     keysNodup ([("bar", (⟨"", "#/definitions/missing", ⟨"", ""⟩, ⟨""⟩, "", "b"⟩ : Property))] :
       List (String × Property)) ∧
     (generate unresolvedDoc).ok = true) ∧
    Substr ("\n  " ++ "bar" ++ "?: " ++
      convertRefToClassName "#/definitions/missing" ++ ";")
      (generate unresolvedDoc).out :=
  ⟨⟨by decide, by decide, by decide⟩,
   claim_C1_unresolved_ref_not_aborted unresolvedDoc "foo" "bar"
     ⟨[("bar", ⟨"", "#/definitions/missing", ⟨"", ""⟩, ⟨""⟩, "", "b"⟩)], "d"⟩
     ⟨"", "#/definitions/missing", ⟨"", ""⟩, ⟨""⟩, "", "b"⟩
     (by decide) (by decide) (by decide) (by decide) (by decide) (by decide) (by decide)⟩

end OpenapiGen
